import Mathlib

/-!
Shallow embedding of `src/server_epoll.cpp`: a single-threaded epoll-based
TCP server with a signalfd channel, one listening socket and at most one
active client connection.  File descriptors are modelled as `Nat` (with the
`-1` sentinel of `UniqueFd` modelled as `Int`), kernel/system behaviour is
modelled by explicit input scripts (which signals are pending, which fds
`accept` returns, what each `recv` call returns), and observable behaviour
(log lines, epoll registrations, fd closes, exit code) is accumulated in an
explicit state record.
-/

namespace Srv

/-- Linux signal numbers used by the program (`SIGHUP`, `SIGTERM`). -/
def SIGHUP : Nat := 1

def SIGTERM : Nat := 15

/-! ## Port parsing (`main`, lines 164–168): `std::atoi` on `argv[1]` -/

/-- C `isspace` in the default locale: the characters skipped by `atoi`
before the optional sign and the digits. -/
def isSpaceC (c : Char) : Bool :=
  decide (c = ' ' ∨ c = '\t' ∨ c = '\n' ∨ c = '\r' ∨ c = Char.ofNat 11 ∨ c = Char.ofNat 12)

/-- Numeric value of a decimal digit character. -/
def digitVal (c : Char) : Nat := c.toNat - 48

/-- Read a run of leading decimal digits, accumulating their value;
stops at the first non-digit character (as `atoi` does). -/
def readDigits (acc : Nat) : List Char → Nat
  | [] => acc
  | c :: rest => if c.isDigit then readDigits (acc * 10 + digitVal c) rest else acc

/-- Drop the leading whitespace that `atoi` skips. -/
def skipSpaces : List Char → List Char
  | [] => []
  | c :: rest => if isSpaceC c then skipSpaces rest else c :: rest

/-- `std::atoi` on a character list: skip whitespace, read an optional single
sign, then the longest run of decimal digits (0 when there is none).
Modelled with exact integer arithmetic: the claims under study only concern
values far below the `int` overflow threshold. -/
def atoiChars (cs : List Char) : Int :=
  match skipSpaces cs with
  | [] => 0
  | c :: rest =>
    if c = '-' then - (readDigits 0 rest : Int)
    else if c = '+' then (readDigits 0 rest : Int)
    else (readDigits 0 (c :: rest) : Int)

/-- `std::atoi` on a string. -/
def atoi (s : String) : Int := atoiChars s.data

/-- Port selection of `main` (lines 164–168): `port = 12345`; if an argument
is present, `p = atoi(argv[1])`; if `0 < p ∧ p ≤ 65535` then `port = p`. -/
def choosePort (args : List String) : Nat :=
  match args with
  | [] => 12345
  | a :: _ =>
    let p := atoi a
    if 0 < p ∧ p ≤ 65535 then p.toNat else 12345

/-! ## `sys::UniqueFd` (lines 25–50)

The wrapper stores `fd_ : int` with `-1` as the empty sentinel.  Operations
return the resulting object(s) together with the list of raw fds passed to
`::close` by that operation, so "closes exactly once" is the statement that
those lists concatenate to a single occurrence. -/

structure UniqueFd where
  fd : Int

/-- `UniqueFd::reset(newfd)`: closes the held fd if not `-1`, then stores
`newfd`.  Returns the new state and the fds closed. -/
def UniqueFd.reset (u : UniqueFd) (newfd : Int) : UniqueFd × List Int :=
  (⟨newfd⟩, if u.fd = -1 then [] else [u.fd])

/-- `UniqueFd::~UniqueFd()`: `reset()` with the default `-1`. -/
def UniqueFd.destroy (u : UniqueFd) : UniqueFd × List Int := u.reset (-1)

/-- Move constructor `UniqueFd(UniqueFd&& o)`: steals `o.fd_`, the source
is left holding `-1`.  Returns `(destination, source-after-move)`. -/
def UniqueFd.moveCtor (o : UniqueFd) : UniqueFd × UniqueFd :=
  (⟨o.fd⟩, ⟨-1⟩)

/-- Move assignment `operator=(UniqueFd&& o)` in the `this != &o` branch:
`reset()` the destination (closing what it held), steal `o.fd_`, leave the
source at `-1`.  Returns `((destination, source-after-move), closed fds)`.
(The `this == &o` branch of the source is a guarded no-op.) -/
def UniqueFd.moveAssign (dst o : UniqueFd) : (UniqueFd × UniqueFd) × List Int :=
  ((⟨o.fd⟩, ⟨-1⟩), (dst.reset o.fd).2)

/-! ## `sys::SignalFd::drain_and_handle` (lines 92–106)

The input script is the list of pending `signalfd_siginfo.ssi_signo` values
the non-blocking `read` loop yields before it stops returning full
structures.  The result is the log lines written and the returned `stop`. -/

/-- The log line written for one drained signal event. -/
def sigLine (s : Nat) : String :=
  if s = SIGHUP then "[signal] SIGHUP"
  else if s = SIGTERM then "[signal] SIGTERM -> shutdown"
  else "[signal] " ++ toString s

/-- `SignalFd::drain_and_handle`: one log line per drained event;
`stop` is set when a `SIGTERM` event is drained and is never cleared. -/
def SignalFd.drain_and_handle : List Nat → List String × Bool
  | [] => ([], false)
  | s :: rest =>
    let r := SignalFd.drain_and_handle rest
    (sigLine s :: r.1, (s == SIGTERM) || r.2)

/-! ## `sys::Listener::Listener` (lines 115–132)

The OS outcomes of the fallible calls are an oracle: `socketFd` is the fd
returned by `::socket` (`none` = failure), `sockoptOk`/`bindOk`/`listenOk`
are the success of `::setsockopt`/`::bind`/`::listen`.  The constructor is
modelled as the final `fd_` value (`none` = invalid Handle) plus the exact
sequence of system calls it makes. -/

structure LstOracle where
  socketFd : Option Nat
  sockoptOk : Bool
  bindOk : Bool
  listenOk : Bool

inductive SysStep where
  | socketCall
  | sockoptCall
  | bindCall
  | listenCall
  | nonblockCall
  | closeCall (fd : Nat)
deriving DecidableEq

/-- `Listener::Listener(port)`: socket, setsockopt(SO_REUSEADDR), bind,
listen(SOMAXCONN), set_nonblock, `fd_.reset(s)`.  `::socket` failure returns
early; `::bind` / `::listen` failure closes `s` and returns early; the
results of `::setsockopt` and of the `set_nonblock` fcntl calls are not
inspected by the code. -/
def Listener.construct (o : LstOracle) : Option Nat × List SysStep :=
  match o.socketFd with
  | none => (none, [.socketCall])
  | some s =>
    if o.bindOk = false then
      (none, [.socketCall, .sockoptCall, .bindCall, .closeCall s])
    else if o.listenOk = false then
      (none, [.socketCall, .sockoptCall, .bindCall, .listenCall, .closeCall s])
    else
      (some s, [.socketCall, .sockoptCall, .bindCall, .listenCall, .nonblockCall])

/-! ## The dispatch loop of `main` (lines 163–255)

State observable in the model: the optional client slot (`std::optional<
sys::Client> client`), the epoll interest set, the set of open fds, the
stdout log, a trace of registration/deregistration/close events (used to
state the deregister-before-release invariant), a well-formedness flag
recording that every fd handed out by `::accept` was fresh (the kernel
guarantee that an accepted fd is not one that is currently open), and the
`stop` flag. -/

/-- One result of `Client::recv_some` (a non-blocking `::recv`):
`pos k` is a positive return of `k + 1` bytes; `zero` is a 0 return
(orderly close); `wouldBlock` is `-1` with `errno ∈ {EAGAIN, EWOULDBLOCK}`;
`err` is `-1` with any other `errno`. -/
inductive RecvResult where
  | pos (k : Nat)
  | zero
  | wouldBlock
  | err
deriving DecidableEq

/-- Lifecycle events on raw fds, as seen by the Reactor invariant:
`reg`/`dereg` are `epoll_ctl` ADD/DEL, `close` is `::close` of the fd, and
`reactorGone` is the destruction of the epoll instance itself (which drops
its whole interest set). -/
inductive TraceEv where
  | reg (fd : Nat)
  | dereg (fd : Nat)
  | close (fd : Nat)
  | reactorGone
deriving DecidableEq

structure SrvSt where
  client : Option Nat
  regs : List Nat
  openFds : List Nat
  log : List String
  trace : List TraceEv
  wf : Bool
  stop : Bool
deriving DecidableEq

/-- Process one successful `accept` returning fd `nf` (lines 206–215):
log "New connection"; if the slot is empty, `client.emplace(nf)`,
`ep.add_in`, log active; otherwise log rejection and `::close(nf)`.
The `wf` flag records the kernel freshness guarantee for `nf`; a rejected
fd is opened and closed within the same step, so `openFds` is unchanged
on the rejection branch. -/
def acceptOne (nf : Nat) (st : SrvSt) : SrvSt :=
  let w := if nf ∈ st.openFds then false else st.wf
  match st.client with
  | none =>
    { st with
      client := some nf
      regs := st.regs ++ [nf]
      openFds := st.openFds ++ [nf]
      log := st.log ++ ["New connection", "This connection is now the active client"]
      trace := st.trace ++ [.reg nf]
      wf := w }
  | some _ =>
    { st with
      log := st.log ++ ["New connection", "Active client already present, closing new"]
      trace := st.trace ++ [.close nf]
      wf := w }

/-- The listener drain loop (lines 199–216): process each fd that
`accept` yields before it first fails (any failure — `EAGAIN` or
otherwise — ends the loop). -/
def acceptLoop : List Nat → SrvSt → SrvSt
  | [], st => st
  | nf :: rest, st => acceptLoop rest (acceptOne nf st)

/-- The connection drain loop (lines 223–246) on the active client fd `c`:
positive `recv` logs the byte count and continues; `0` logs the orderly
close, `ep.del(c)` then `client.reset()` (deregister, then close) and stops;
`EAGAIN`/`EWOULDBLOCK` stops keeping the client; any other error logs,
deregisters, closes and stops. -/
def recvLoop (c : Nat) : List RecvResult → SrvSt → SrvSt
  | [], st => st
  | .pos k :: rest, st =>
    recvLoop c rest { st with log := st.log ++ ["Received " ++ toString (k + 1) ++ " bytes"] }
  | .zero :: _, st =>
    { st with
      client := none
      regs := st.regs.erase c
      openFds := st.openFds.erase c
      log := st.log ++ ["Client closed connection"]
      trace := st.trace ++ [.dereg c, .close c] }
  | .wouldBlock :: _, st => st
  | .err :: _, st =>
    { st with
      client := none
      regs := st.regs.erase c
      openFds := st.openFds.erase c
      log := st.log ++ ["Client recv error"]
      trace := st.trace ++ [.dereg c, .close c] }

/-- One ready item of an `epoll_wait` batch, with the environment's script
for the system calls the corresponding branch performs: `sigReady` is the
signalfd being ready (with the pending signal numbers), `lstReady` is the
listener being ready (with the fds `accept` yields), `connReady fd` is a
readiness report for `fd` carrying the `recv` results (handled only when
`fd` is the current client, line 220). -/
inductive Ev where
  | sigReady (sigs : List Nat)
  | lstReady (accepts : List Nat)
  | connReady (fd : Nat) (rs : List RecvResult)

/-- Dispatch of one ready item (lines 190–249). -/
def stepEv (st : SrvSt) (e : Ev) : SrvSt :=
  match e with
  | .sigReady sigs =>
    let r := SignalFd.drain_and_handle sigs
    { st with log := st.log ++ r.1, stop := st.stop || r.2 }
  | .lstReady accepts => acceptLoop accepts st
  | .connReady fd rs => if st.client = some fd then recvLoop fd rs st else st

/-- One `epoll_wait` batch: the inner `for` runs every item regardless of
`stop` (the code only `continue`s the inner loop). -/
def runBatch (st : SrvSt) (b : List Ev) : SrvSt := b.foldl stepEv st

/-- The outer `while (!stop)` loop over the scripted batches; a batch with
`n <= 0` is the empty list. -/
def runLoop : List (List Ev) → SrvSt → SrvSt
  | [], st => st
  | b :: bs, st => if st.stop then st else runLoop bs (runBatch st b)

/-- State after the startup sequence (lines 176–184): signalfd and listener
registered with the epoll instance, "Listening" line printed, empty slot. -/
def initSt (port sfdFd lstFd epFd : Nat) : SrvSt :=
  { client := none
    regs := [sfdFd, lstFd]
    openFds := [sfdFd, lstFd, epFd]
    log := ["Listening on port " ++ toString port]
    trace := [.reg sfdFd, .reg lstFd]
    wf := true
    stop := false }

/-- Teardown after the loop exits (lines 253–254 and scope exit): locals
are destroyed in reverse declaration order `client`, `ep`, `lst`, `sfd` —
so an active client's fd is closed first, then the epoll instance is
destroyed, then the listener's and the signalfd's fds are closed. -/
def shutdownTrace (sfdFd lstFd : Nat) (st : SrvSt) : List TraceEv :=
  (match st.client with | some c => [TraceEv.close c] | none => []) ++
    [TraceEv.reactorGone, TraceEv.close lstFd, TraceEv.close sfdFd]

/-- The observable outcome of `main`: an exit code, or still blocked in
`epoll_wait` once the scripted batches are exhausted. -/
inductive MainOutcome where
  | exited (code : Nat)
  | stillRunning
deriving DecidableEq

/-- The state `main` never reaches past line 174: nothing logged, nothing
registered, no batch processed. -/
def emptySrvSt : SrvSt :=
  { client := none, regs := [], openFds := [], log := [], trace := [], wf := true, stop := false }

/-- `main` (lines 163–255): choose the port from `argv`, construct the
signalfd / listener / epoll instance (their success given by the three
validity booleans), `return 1` if any is invalid (line 174); otherwise run
the dispatch loop on the scripted batches and `return 0` once `stop` is
set (line 254). -/
def mainModel (args : List String) (sfdValid lstValid epValid : Bool)
    (sfdFd lstFd epFd : Nat) (batches : List (List Ev)) : MainOutcome × SrvSt :=
  if sfdValid && lstValid && epValid then
    let fin := runLoop batches (initSt (choosePort args) sfdFd lstFd epFd)
    (if fin.stop then .exited 0 else .stillRunning, fin)
  else
    (.exited 1, emptySrvSt)

/-! ## Deregister-before-release checker

A trace audit: scanning the fd lifecycle events, `ok` is cleared exactly
when some fd is closed while still in the live Reactor's interest set. -/

structure OkSt where
  regs : List Nat
  alive : Bool
  ok : Bool
deriving DecidableEq

def okStep (s : OkSt) (e : TraceEv) : OkSt :=
  match e with
  | .reg f => { s with regs := s.regs ++ [f] }
  | .dereg f => { s with regs := s.regs.erase f }
  | .reactorGone => { s with alive := false }
  | .close f => if s.alive = true ∧ f ∈ s.regs then { s with ok := false } else s

def okInit : OkSt := ⟨[], true, true⟩

def okFrom (s : OkSt) (t : List TraceEv) : OkSt := t.foldl okStep s

/-- `true` iff no fd in the trace is closed while still registered with the
live Reactor. -/
def okTrace (t : List TraceEv) : Bool := (okFrom okInit t).ok

/-! ## Expected outputs of the drain sub-loops -/

/-- Log lines of an accept-drain pass in which every accept is rejected. -/
def rejectLog : List Nat → List String
  | [] => []
  | _ :: rest => "New connection" :: "Active client already present, closing new" :: rejectLog rest

/-- Log lines of an accept-drain pass starting with an empty slot: the first
accept is admitted, the rest are rejected. -/
def admitLog : List Nat → List String
  | [] => []
  | _ :: rest => "New connection" :: "This connection is now the active client" :: rejectLog rest

/-- Byte counts logged by the leading positive `recv` results. -/
def posCounts : List RecvResult → List Nat
  | .pos k :: rest => (k + 1) :: posCounts rest
  | _ => []

/-- The log line (if any) of the `recv` result that stops the drain. -/
def stopLog : List RecvResult → List String
  | .pos _ :: rest => stopLog rest
  | .zero :: _ => ["Client closed connection"]
  | .err :: _ => ["Client recv error"]
  | _ => []

/-- Whether the drain ends by removing the client (first non-positive
result is an orderly close or a hard error). -/
def endsRemoved : List RecvResult → Bool
  | .pos _ :: rest => endsRemoved rest
  | .zero :: _ => true
  | .err :: _ => true
  | _ => false

/-! ## Characterization of `SignalFd.drain_and_handle` -/

theorem drain_log (sigs : List Nat) :
    (SignalFd.drain_and_handle sigs).1 = sigs.map sigLine := by
  induction sigs with
  | nil => rfl
  | cons s rest ih => simp [SignalFd.drain_and_handle, ih]

theorem drain_stop (sigs : List Nat) :
    (SignalFd.drain_and_handle sigs).2 = true ↔ SIGTERM ∈ sigs := by
  induction sigs with
  | nil => simp [SignalFd.drain_and_handle]
  | cons s rest ih =>
    simp [SignalFd.drain_and_handle, ih, Bool.or_eq_true, beq_iff_eq]
    constructor
    · rintro (h | h)
      · exact Or.inl h.symm
      · exact Or.inr h
    · rintro (h | h)
      · exact Or.inl h.symm
      · exact Or.inr h

/-! ## Characterization of the accept-drain loop -/

theorem acceptLoop_client (accepts : List Nat) (st : SrvSt) :
    (acceptLoop accepts st).client =
      (match st.client with | some c => some c | none => accepts.head?) := by
  induction accepts generalizing st with
  | nil => cases hc : st.client <;> simp [acceptLoop, hc]
  | cons nf rest ih =>
    cases hc : st.client with
    | none => simp [acceptLoop, acceptOne, hc, ih]
    | some c => simp [acceptLoop, acceptOne, hc, ih]

theorem acceptLoop_regs (accepts : List Nat) (st : SrvSt) :
    (acceptLoop accepts st).regs =
      st.regs ++ (match st.client with | some _ => [] | none => accepts.take 1) := by
  induction accepts generalizing st with
  | nil => cases st.client <;> simp [acceptLoop]
  | cons nf rest ih =>
    cases hc : st.client with
    | none => simp [acceptLoop, acceptOne, hc, ih]
    | some c => simp [acceptLoop, acceptOne, hc, ih]

theorem acceptLoop_trace (accepts : List Nat) (st : SrvSt) :
    (acceptLoop accepts st).trace =
      st.trace ++ (match st.client with
        | some _ => accepts.map TraceEv.close
        | none => (accepts.take 1).map TraceEv.reg ++ (accepts.drop 1).map TraceEv.close) := by
  induction accepts generalizing st with
  | nil => cases st.client <;> simp [acceptLoop]
  | cons nf rest ih =>
    cases hc : st.client with
    | none => simp [acceptLoop, acceptOne, hc, ih]
    | some c => simp [acceptLoop, acceptOne, hc, ih]

theorem acceptLoop_log (accepts : List Nat) (st : SrvSt) :
    (acceptLoop accepts st).log =
      st.log ++ (match st.client with
        | some _ => rejectLog accepts
        | none => admitLog accepts) := by
  induction accepts generalizing st with
  | nil => cases st.client <;> simp [acceptLoop, rejectLog, admitLog]
  | cons nf rest ih =>
    cases hc : st.client with
    | none => simp [acceptLoop, acceptOne, hc, ih, admitLog, rejectLog]
    | some c => simp [acceptLoop, acceptOne, hc, ih, rejectLog]

theorem acceptLoop_stop (accepts : List Nat) (st : SrvSt) :
    (acceptLoop accepts st).stop = st.stop := by
  induction accepts generalizing st with
  | nil => rfl
  | cons nf rest ih =>
    cases hc : st.client with
    | none => simp [acceptLoop, acceptOne, hc, ih]
    | some c => simp [acceptLoop, acceptOne, hc, ih]

/-! ## Characterization of the connection drain loop -/

theorem recvLoop_client (c : Nat) (rs : List RecvResult) (st : SrvSt) :
    (recvLoop c rs st).client = (if endsRemoved rs then none else st.client) := by
  induction rs generalizing st with
  | nil => simp [recvLoop, endsRemoved]
  | cons r rest ih =>
    cases r <;> simp [recvLoop, endsRemoved, ih]

theorem recvLoop_regs (c : Nat) (rs : List RecvResult) (st : SrvSt) :
    (recvLoop c rs st).regs = (if endsRemoved rs then st.regs.erase c else st.regs) := by
  induction rs generalizing st with
  | nil => simp [recvLoop, endsRemoved]
  | cons r rest ih =>
    cases r <;> simp [recvLoop, endsRemoved, ih]

theorem recvLoop_openFds (c : Nat) (rs : List RecvResult) (st : SrvSt) :
    (recvLoop c rs st).openFds = (if endsRemoved rs then st.openFds.erase c else st.openFds) := by
  induction rs generalizing st with
  | nil => simp [recvLoop, endsRemoved]
  | cons r rest ih =>
    cases r <;> simp [recvLoop, endsRemoved, ih]

theorem recvLoop_trace (c : Nat) (rs : List RecvResult) (st : SrvSt) :
    (recvLoop c rs st).trace =
      st.trace ++ (if endsRemoved rs then [TraceEv.dereg c, TraceEv.close c] else []) := by
  induction rs generalizing st with
  | nil => simp [recvLoop, endsRemoved]
  | cons r rest ih =>
    cases r <;> simp [recvLoop, endsRemoved, ih]

theorem recvLoop_log (c : Nat) (rs : List RecvResult) (st : SrvSt) :
    (recvLoop c rs st).log =
      st.log ++ (posCounts rs).map (fun n => "Received " ++ toString n ++ " bytes")
        ++ stopLog rs := by
  induction rs generalizing st with
  | nil => simp [recvLoop, posCounts, stopLog]
  | cons r rest ih =>
    cases r <;> simp [recvLoop, posCounts, stopLog, ih]

theorem recvLoop_stop (c : Nat) (rs : List RecvResult) (st : SrvSt) :
    (recvLoop c rs st).stop = st.stop := by
  induction rs generalizing st with
  | nil => rfl
  | cons r rest ih =>
    cases r <;> simp [recvLoop, ih]

theorem recvLoop_wf (c : Nat) (rs : List RecvResult) (st : SrvSt) :
    (recvLoop c rs st).wf = st.wf := by
  induction rs generalizing st with
  | nil => rfl
  | cons r rest ih =>
    cases r <;> simp [recvLoop, ih]

/-! ## Propagation of the `stop` flag through the dispatch loop -/

/-- Whether handling this ready item requests termination: only a signal
batch does, and exactly when `drain_and_handle` returns `true`. -/
def evHasTerm : Ev → Bool
  | .sigReady sigs => (SignalFd.drain_and_handle sigs).2
  | .lstReady _ => false
  | .connReady _ _ => false

def batchHasTerm (b : List Ev) : Bool := b.any evHasTerm

theorem stepEv_stop (st : SrvSt) (e : Ev) :
    (stepEv st e).stop = (st.stop || evHasTerm e) := by
  cases e with
  | sigReady sigs => simp [stepEv, evHasTerm]
  | lstReady accepts => simp [stepEv, evHasTerm, acceptLoop_stop]
  | connReady fd rs =>
    by_cases h : st.client = some fd <;> simp [stepEv, evHasTerm, h, recvLoop_stop]

theorem runBatch_stop (st : SrvSt) (b : List Ev) :
    (runBatch st b).stop = (st.stop || batchHasTerm b) := by
  induction b generalizing st with
  | nil => simp [runBatch, batchHasTerm]
  | cons e rest ih =>
    simp only [runBatch, List.foldl_cons, batchHasTerm, List.any_cons]
    rw [show List.foldl stepEv (stepEv st e) rest = runBatch (stepEv st e) rest from rfl, ih,
      stepEv_stop]
    simp [batchHasTerm, Bool.or_assoc]

theorem runLoop_of_stop (bs : List (List Ev)) (st : SrvSt) (h : st.stop = true) :
    runLoop bs st = st := by
  cases bs with
  | nil => rfl
  | cons b rest => simp [runLoop, h]

theorem runLoop_stop (bs : List (List Ev)) (st : SrvSt) :
    (runLoop bs st).stop = (st.stop || bs.any batchHasTerm) := by
  induction bs generalizing st with
  | nil => simp [runLoop]
  | cons b rest ih =>
    by_cases h : st.stop = true
    · simp [runLoop, h]
    · simp only [Bool.not_eq_true] at h
      simp [runLoop, h, ih, runBatch_stop, Bool.or_assoc]

/-! ## Monotonicity of the freshness flag `wf` -/

theorem acceptOne_wf_true {nf : Nat} {st : SrvSt} (h : (acceptOne nf st).wf = true) :
    st.wf = true ∧ nf ∉ st.openFds := by
  cases hc : st.client with
  | none =>
    simp only [acceptOne, hc] at h
    by_cases hm : nf ∈ st.openFds <;> simp [hm] at h <;> simp [h, hm]
  | some c =>
    simp only [acceptOne, hc] at h
    by_cases hm : nf ∈ st.openFds <;> simp [hm] at h <;> simp [h, hm]

theorem acceptLoop_wf_mono {accepts : List Nat} {st : SrvSt}
    (h : (acceptLoop accepts st).wf = true) : st.wf = true := by
  induction accepts generalizing st with
  | nil => exact h
  | cons nf rest ih => exact (acceptOne_wf_true (ih h)).1

theorem stepEv_wf_mono {st : SrvSt} {e : Ev} (h : (stepEv st e).wf = true) :
    st.wf = true := by
  cases e with
  | sigReady sigs => simpa [stepEv] using h
  | lstReady accepts => exact acceptLoop_wf_mono h
  | connReady fd rs =>
    by_cases hc : st.client = some fd
    · simp only [stepEv, hc, if_pos] at h
      rwa [recvLoop_wf] at h
    · simpa [stepEv, hc] using h

theorem runBatch_wf_mono {st : SrvSt} {b : List Ev} (h : (runBatch st b).wf = true) :
    st.wf = true := by
  induction b generalizing st with
  | nil => exact h
  | cons e rest ih => exact stepEv_wf_mono (ih h)

theorem runLoop_wf_mono {bs : List (List Ev)} {st : SrvSt}
    (h : (runLoop bs st).wf = true) : st.wf = true := by
  induction bs generalizing st with
  | nil => exact h
  | cons b rest ih =>
    by_cases hs : st.stop = true
    · simpa [runLoop, hs] using h
    · simp only [Bool.not_eq_true] at hs
      simp only [runLoop, hs, Bool.false_eq_true, if_false] at h
      exact runBatch_wf_mono (ih h)

/-! ## The reachable-state invariant of the dispatch loop

In every well-formed execution the epoll interest set is exactly the
signalfd, the listener, and the current client (if any); the open fds are
those plus the epoll fd itself; and the client's fd is distinct from the
three fds acquired at startup.  `okAligned` says the audit of the trace so
far has found no close-while-registered and its bookkeeping agrees with the
actual interest set. -/

def Inv (s l e : Nat) (st : SrvSt) : Prop :=
  st.regs = [s, l] ++ st.client.toList ∧
  st.openFds = [s, l, e] ++ st.client.toList ∧
  (∀ c, st.client = some c → ¬(c = s ∨ c = l ∨ c = e))

def okAligned (st : SrvSt) : Prop :=
  okFrom okInit st.trace = ⟨st.regs, true, true⟩

theorem okFrom_append (s : OkSt) (t t' : List TraceEv) :
    okFrom s (t ++ t') = okFrom (okFrom s t) t' := by
  simp [okFrom, List.foldl_append]

theorem okStep_ok_false {s : OkSt} (h : s.ok = false) (e : TraceEv) :
    (okStep s e).ok = false := by
  cases e with
  | reg f => simpa [okStep] using h
  | dereg f => simpa [okStep] using h
  | close f => by_cases hc : s.alive = true ∧ f ∈ s.regs <;> simp [okStep, hc, h]
  | reactorGone => simpa [okStep] using h

theorem okFrom_ok_false {s : OkSt} (h : s.ok = false) (t : List TraceEv) :
    (okFrom s t).ok = false := by
  induction t generalizing s with
  | nil => exact h
  | cons e rest ih => exact ih (okStep_ok_false h e)

theorem erase3 {s l c : Nat} (h1 : s ≠ c) (h2 : l ≠ c) :
    ([s, l, c] : List Nat).erase c = [s, l] := by
  simp [List.erase_cons, h1, h2]

theorem erase4 {s l e c : Nat} (h1 : s ≠ c) (h2 : l ≠ c) (h3 : e ≠ c) :
    ([s, l, e, c] : List Nat).erase c = [s, l, e] := by
  simp [List.erase_cons, h1, h2, h3]

theorem acceptOne_keep {s l e nf : Nat} {st : SrvSt}
    (hwf : (acceptOne nf st).wf = true) (hInv : Inv s l e st) (hok : okAligned st) :
    Inv s l e (acceptOne nf st) ∧ okAligned (acceptOne nf st) := by
  obtain ⟨hw, hfresh⟩ := acceptOne_wf_true hwf
  obtain ⟨hregs, hopen, hdist⟩ := hInv
  cases hc : st.client with
  | none =>
    rw [hc] at hregs hopen
    simp only [Option.toList_none, List.append_nil] at hregs hopen
    have hnf : ¬(nf = s ∨ nf = l ∨ nf = e) := by
      rw [hopen] at hfresh
      intro hor
      rcases hor with h | h | h <;> subst h <;> simp at hfresh
    refine ⟨⟨?_, ?_, ?_⟩, ?_⟩
    · simp [acceptOne, hc, hregs]
    · simp [acceptOne, hc, hopen]
    · intro c hcl
      simp only [acceptOne, hc] at hcl
      cases hcl
      exact hnf
    · unfold okAligned at hok ⊢
      simp only [acceptOne, hc]
      rw [okFrom_append, hok]
      simp [okFrom, okStep]
  | some c =>
    rw [hc] at hregs hopen
    simp only [Option.toList_some] at hregs hopen
    have hnf : nf ∉ st.regs := by
      rw [hopen] at hfresh
      rw [hregs]
      intro hmem
      apply hfresh
      simp only [List.mem_cons, List.mem_singleton, List.mem_append] at hmem ⊢
      tauto
    refine ⟨⟨?_, ?_, ?_⟩, ?_⟩
    · simp [acceptOne, hc, hregs]
    · simp [acceptOne, hc, hopen]
    · intro c' hcl
      simp only [acceptOne, hc] at hcl
      cases hcl
      exact hdist c hc
    · unfold okAligned at hok ⊢
      simp only [acceptOne, hc]
      rw [okFrom_append, hok]
      simp [okFrom, okStep, hnf]

theorem acceptLoop_keep {s l e : Nat} {accepts : List Nat} {st : SrvSt}
    (hwf : (acceptLoop accepts st).wf = true) (hInv : Inv s l e st) (hok : okAligned st) :
    Inv s l e (acceptLoop accepts st) ∧ okAligned (acceptLoop accepts st) := by
  induction accepts generalizing st with
  | nil => exact ⟨hInv, hok⟩
  | cons nf rest ih =>
    have hwf1 : (acceptOne nf st).wf = true := acceptLoop_wf_mono hwf
    obtain ⟨hInv1, hok1⟩ := acceptOne_keep hwf1 hInv hok
    exact ih hwf hInv1 hok1

theorem recvLoop_keep {s l e c : Nat} {rs : List RecvResult} {st : SrvSt}
    (hc : st.client = some c) (hInv : Inv s l e st) (hok : okAligned st) :
    Inv s l e (recvLoop c rs st) ∧ okAligned (recvLoop c rs st) := by
  obtain ⟨hregs, hopen, hdist⟩ := hInv
  rw [hc] at hregs hopen
  simp only [Option.toList_some] at hregs hopen
  have hcd := hdist c hc
  have h1 : s ≠ c := fun h => hcd (Or.inl h.symm)
  have h2 : l ≠ c := fun h => hcd (Or.inr (Or.inl h.symm))
  have h3 : e ≠ c := fun h => hcd (Or.inr (Or.inr h.symm))
  by_cases hrm : endsRemoved rs = true
  · refine ⟨⟨?_, ?_, ?_⟩, ?_⟩
    · rw [recvLoop_regs, recvLoop_client, if_pos hrm, if_pos hrm, hregs]
      have : ([s, l] ++ [c] : List Nat) = [s, l, c] := rfl
      rw [this, erase3 h1 h2]
      simp
    · rw [recvLoop_openFds, recvLoop_client, if_pos hrm, if_pos hrm, hopen]
      have : ([s, l, e] ++ [c] : List Nat) = [s, l, e, c] := rfl
      rw [this, erase4 h1 h2 h3]
      simp
    · intro c' hcl
      rw [recvLoop_client, if_pos hrm] at hcl
      cases hcl
    · unfold okAligned at hok ⊢
      rw [recvLoop_trace, recvLoop_regs, if_pos hrm, if_pos hrm, okFrom_append, hok]
      have hmem : c ∉ st.regs.erase c := by
        rw [hregs]
        have : ([s, l] ++ [c] : List Nat) = [s, l, c] := rfl
        rw [this, erase3 h1 h2]
        simp only [List.mem_cons, List.mem_singleton]
        rintro (h | h | h)
        · exact h1 h.symm
        · exact h2 h.symm
        · cases h
      simp [okFrom, okStep, hmem]
  · simp only [Bool.not_eq_true] at hrm
    refine ⟨⟨?_, ?_, ?_⟩, ?_⟩
    · rw [recvLoop_regs, recvLoop_client, hrm]
      simp [hc, hregs]
    · rw [recvLoop_openFds, recvLoop_client, hrm]
      simp [hc, hopen]
    · intro c' hcl
      rw [recvLoop_client, hrm] at hcl
      simp only [if_false, Bool.false_eq_true] at hcl
      rw [hc] at hcl
      cases hcl
      exact hdist c hc
    · unfold okAligned at hok ⊢
      rw [recvLoop_trace, recvLoop_regs, hrm]
      simpa using hok

theorem stepEv_keep {s l e : Nat} {st : SrvSt} {ev : Ev}
    (hwf : (stepEv st ev).wf = true) (hInv : Inv s l e st) (hok : okAligned st) :
    Inv s l e (stepEv st ev) ∧ okAligned (stepEv st ev) := by
  cases ev with
  | sigReady sigs =>
    obtain ⟨hregs, hopen, hdist⟩ := hInv
    refine ⟨⟨?_, ?_, ?_⟩, ?_⟩ <;> simp [stepEv, hregs, hopen, okAligned] at *
    · exact hdist
    · exact hok
  | lstReady accepts => exact acceptLoop_keep hwf hInv hok
  | connReady fd rs =>
    by_cases hc : st.client = some fd
    · simp only [stepEv, hc, if_pos]
      exact recvLoop_keep hc hInv hok
    · simpa [stepEv, hc] using ⟨hInv, hok⟩

theorem runBatch_keep {s l e : Nat} {st : SrvSt} {b : List Ev}
    (hwf : (runBatch st b).wf = true) (hInv : Inv s l e st) (hok : okAligned st) :
    Inv s l e (runBatch st b) ∧ okAligned (runBatch st b) := by
  induction b generalizing st with
  | nil => exact ⟨hInv, hok⟩
  | cons ev rest ih =>
    have hwf1 : (stepEv st ev).wf = true := runBatch_wf_mono hwf
    obtain ⟨hInv1, hok1⟩ := stepEv_keep hwf1 hInv hok
    exact ih hwf hInv1 hok1

theorem runLoop_keep {s l e : Nat} {bs : List (List Ev)} {st : SrvSt}
    (hwf : (runLoop bs st).wf = true) (hInv : Inv s l e st) (hok : okAligned st) :
    Inv s l e (runLoop bs st) ∧ okAligned (runLoop bs st) := by
  induction bs generalizing st with
  | nil => exact ⟨hInv, hok⟩
  | cons b rest ih =>
    by_cases hs : st.stop = true
    · simpa [runLoop, hs] using ⟨hInv, hok⟩
    · simp only [Bool.not_eq_true] at hs
      simp only [runLoop, hs, Bool.false_eq_true, if_false] at hwf ⊢
      have hwf1 : (runBatch st b).wf = true := runLoop_wf_mono hwf
      obtain ⟨hInv1, hok1⟩ := runBatch_keep hwf1 hInv hok
      exact ih hwf hInv1 hok1

theorem initSt_Inv (p s l e : Nat) : Inv s l e (initSt p s l e) := by
  refine ⟨?_, ?_, ?_⟩ <;> simp [initSt, Inv]

theorem initSt_okAligned (p s l e : Nat) : okAligned (initSt p s l e) := by
  simp [okAligned, initSt, okFrom, okInit, okStep]

theorem okFrom_cons (s : OkSt) (e : TraceEv) (t : List TraceEv) :
    okFrom s (e :: t) = okFrom (okStep s e) t := rfl

/-! ## Supporting lemmas about `atoi` -/

theorem readDigits_append (acc : Nat) (ds tl : List Char)
    (htl : ∀ c ∈ tl, c.isDigit = false) :
    readDigits acc (ds ++ tl) = readDigits acc ds := by
  induction ds generalizing acc with
  | nil =>
    cases tl with
    | nil => rfl
    | cons c cs => simp [readDigits, htl c (List.mem_cons_self c cs)]
  | cons d ds ih =>
    by_cases hd : d.isDigit = true
    · simp [readDigits, hd, ih]
    · simp only [Bool.not_eq_true] at hd
      simp [readDigits, hd]

theorem readDigits_nodigit (acc : Nat) (cs : List Char)
    (h : ∀ c ∈ cs, c.isDigit = false) : readDigits acc cs = acc := by
  cases cs with
  | nil => rfl
  | cons c rest => simp [readDigits, h c (List.mem_cons_self c rest)]

theorem digit_not_space {c : Char} (h : c.isDigit = true) : isSpaceC c = false := by
  cases hsp : isSpaceC c
  · rfl
  · exfalso
    unfold isSpaceC at hsp
    rw [decide_eq_true_eq] at hsp
    rcases hsp with rfl | rfl | rfl | rfl | rfl | rfl <;> exact absurd h (by decide)

theorem mem_skipSpaces {c : Char} {cs : List Char} (h : c ∈ skipSpaces cs) : c ∈ cs := by
  induction cs with
  | nil => simpa [skipSpaces] using h
  | cons d rest ih =>
    by_cases hd : isSpaceC d = true
    · simp only [skipSpaces, hd, if_pos] at h
      exact List.mem_cons_of_mem d (ih h)
    · simp only [Bool.not_eq_true] at hd
      simp only [skipSpaces, hd, Bool.false_eq_true, if_false] at h
      exact h

theorem atoi_nodigit (a : String) (h : ∀ c ∈ a.data, c.isDigit = false) : atoi a = 0 := by
  unfold atoi atoiChars
  cases hs : skipSpaces a.data with
  | nil => rfl
  | cons c rest =>
    have hall : ∀ x ∈ c :: rest, x.isDigit = false := by
      intro x hx
      exact h x (mem_skipSpaces (hs ▸ hx))
    have hrest : ∀ x ∈ rest, x.isDigit = false :=
      fun x hx => hall x (List.mem_cons_of_mem c hx)
    by_cases hm : c = '-'
    · simp [hm, readDigits_nodigit 0 rest hrest]
    · by_cases hp : c = '+'
      · simp [hm, hp, readDigits_nodigit 0 rest hrest]
      · simp [hm, hp, readDigits_nodigit, hall c (List.mem_cons_self c rest),
          readDigits]

theorem atoi_digits_append (ds tl : List Char) (hne : ds ≠ [])
    (hds : ∀ c ∈ ds, c.isDigit = true) (htl : ∀ c ∈ tl, c.isDigit = false) :
    atoi (String.mk (ds ++ tl)) = atoi (String.mk ds) := by
  cases ds with
  | nil => exact absurd rfl hne
  | cons d ds' =>
    have hd : d.isDigit = true := hds d (List.mem_cons_self d ds')
    have hdsp : isSpaceC d = false := digit_not_space hd
    have hdm : ¬(d = '-') := by rintro rfl; exact absurd hd (by decide)
    have hdp : ¬(d = '+') := by rintro rfl; exact absurd hd (by decide)
    show atoiChars ((d :: ds') ++ tl) = atoiChars (d :: ds')
    simp only [atoiChars, List.cons_append, skipSpaces, hdsp, Bool.false_eq_true, if_false,
      hdm, hdp, if_neg]
    have hsame : readDigits 0 (d :: (ds'.append tl)) = readDigits 0 ((d :: ds') ++ tl) := rfl
    rw [hsame, readDigits_append 0 (d :: ds') tl htl]

/-! ## The claims -/

/-- C1: Admission policy of the listener drain loop.  For every batch of
accepted fds: if the slot is empty the first accepted fd becomes the active
client (it is the new slot value, it is appended to the epoll interest set,
`reg` is traced, and the "active" line is logged) and every later fd in the
same drain is closed without registration with the rejection line logged;
if the slot is already occupied, every accepted fd is closed immediately,
nothing is registered, and the slot is unchanged — so at most one client is
ever active. -/
theorem claim_C1 (accepts : List Nat) (st : SrvSt) :
    (acceptLoop accepts st).client =
      (match st.client with | some c => some c | none => accepts.head?) ∧
    (acceptLoop accepts st).regs =
      st.regs ++ (match st.client with | some _ => [] | none => accepts.take 1) ∧
    (acceptLoop accepts st).trace =
      st.trace ++ (match st.client with
        | some _ => accepts.map TraceEv.close
        | none => (accepts.take 1).map TraceEv.reg ++ (accepts.drop 1).map TraceEv.close) ∧
    (acceptLoop accepts st).log =
      st.log ++ (match st.client with
        | some _ => rejectLog accepts
        | none => admitLog accepts) :=
  ⟨acceptLoop_client accepts st, acceptLoop_regs accepts st,
    acceptLoop_trace accepts st, acceptLoop_log accepts st⟩

/-- C2: Receive-drain classification.  Each leading positive `recv` result
logs its byte count and draining continues; the first non-positive result
stops the drain: an orderly close (`zero`) or a hard error (`err`) logs its
line, deregisters the client's fd from the Reactor and closes it (exactly
one `dereg` and one `close` in the trace) and empties the slot, while the
would-block sentinel stops the drain leaving the slot and the registration
untouched. -/
theorem claim_C2 (c : Nat) (rs : List RecvResult) (st : SrvSt) :
    (recvLoop c rs st).log =
      st.log ++ (posCounts rs).map (fun n => "Received " ++ toString n ++ " bytes")
        ++ stopLog rs ∧
    (recvLoop c rs st).client = (if endsRemoved rs then none else st.client) ∧
    (recvLoop c rs st).regs = (if endsRemoved rs then st.regs.erase c else st.regs) ∧
    (recvLoop c rs st).trace =
      st.trace ++ (if endsRemoved rs then [TraceEv.dereg c, TraceEv.close c] else []) :=
  ⟨recvLoop_log c rs st, recvLoop_client c rs st, recvLoop_regs c rs st, recvLoop_trace c rs st⟩

/-- C3: Signal semantics.  `drain_and_handle` logs exactly one line per
drained event via the fixed mapping (`SIGHUP` its reload line, `SIGTERM`
its shutdown line, anything else a generic line) and returns `true` exactly
when a `SIGTERM` event was drained, so a `SIGHUP`-only drain never stops;
the dispatch loop's `stop` flag ends up set exactly when some processed
signal-ready item's drain returned `true`, and in that case `main` exits
with code 0. -/
theorem claim_C3 (sigs : List Nat) (args : List String) (s l e : Nat)
    (bs : List (List Ev)) :
    (SignalFd.drain_and_handle sigs).1 = sigs.map sigLine ∧
    ((SignalFd.drain_and_handle sigs).2 = true ↔ SIGTERM ∈ sigs) ∧
    ((runLoop bs (initSt (choosePort args) s l e)).stop = true ↔
      ∃ b ∈ bs, ∃ item ∈ b, evHasTerm item = true) ∧
    ((mainModel args true true true s l e bs).1 = MainOutcome.exited 0 ↔
      (runLoop bs (initSt (choosePort args) s l e)).stop = true) := by
  refine ⟨drain_log sigs, drain_stop sigs, ?_, ?_⟩
  · rw [runLoop_stop]
    simp [initSt, batchHasTerm, List.any_eq_true]
  · simp only [mainModel, Bool.and_self, if_pos]
    by_cases h : (runLoop bs (initSt (choosePort args) s l e)).stop = true
    · simp [h]
    · simp only [Bool.not_eq_true] at h
      simp [h]

/-- C4: Exit codes.  `main` returns 1 exactly when one of the three startup
constructions is invalid (and then nothing is logged and no batch is
processed); it returns 0 exactly when the constructions succeeded and the
dispatch loop terminated via the `stop` flag; the only behaviours are exit
0, exit 1, or still blocking in `epoll_wait`. -/
theorem claim_C4 (args : List String) (sv lv ev : Bool) (s l e : Nat)
    (bs : List (List Ev)) :
    ((mainModel args sv lv ev s l e bs).1 = MainOutcome.exited 1 ↔
      (sv && lv && ev) = false) ∧
    ((mainModel args sv lv ev s l e bs).1 = MainOutcome.exited 0 ↔
      ((sv && lv && ev) = true ∧
        (runLoop bs (initSt (choosePort args) s l e)).stop = true)) ∧
    ((mainModel args sv lv ev s l e bs).1 = MainOutcome.exited 0 ∨
      (mainModel args sv lv ev s l e bs).1 = MainOutcome.exited 1 ∨
      (mainModel args sv lv ev s l e bs).1 = MainOutcome.stillRunning) ∧
    ((mainModel args sv lv ev s l e bs).2 =
      (if sv && lv && ev then runLoop bs (initSt (choosePort args) s l e)
       else emptySrvSt)) := by
  by_cases hv : (sv && lv && ev) = true
  · by_cases h : (runLoop bs (initSt (choosePort args) s l e)).stop = true
    · simp [mainModel, hv, h]
    · simp only [Bool.not_eq_true] at h
      simp [mainModel, hv, h]
  · simp only [Bool.not_eq_true] at hv
    simp [mainModel, hv]

/-- C5 counterexample: the claim "every registered identifier is
deregistered from the Reactor before its owning Handle releases it, in
every execution including the shutdown path" is false.  In the well-formed
execution that admits client fd 7 and then receives `SIGTERM`, fd 7 is
registered, the loop exits with the client still active, and teardown
(reverse declaration order: `client` before `ep`) closes fd 7 while it is
still in the live epoll interest set — the trace audit reports a
close-while-registered. -/
theorem claim_C5_cex :
    (runLoop [[Ev.lstReady [7]], [Ev.sigReady [15]]] (initSt 12345 3 4 5)).wf = true ∧
    (runLoop [[Ev.lstReady [7]], [Ev.sigReady [15]]] (initSt 12345 3 4 5)).client = some 7 ∧
    TraceEv.reg 7 ∈ (runLoop [[Ev.lstReady [7]], [Ev.sigReady [15]]] (initSt 12345 3 4 5)).trace ∧
    okTrace ((runLoop [[Ev.lstReady [7]], [Ev.sigReady [15]]] (initSt 12345 3 4 5)).trace ++
      shutdownTrace 3 4 (runLoop [[Ev.lstReady [7]], [Ev.sigReady [15]]] (initSt 12345 3 4 5))) =
      false := by decide

/-- C5 (amended): in every well-formed execution, all identifier closes
performed while the dispatch loop runs are preceded by deregistration (the
in-loop trace audit always passes); on the shutdown path the listener's and
signal channel's identifiers are closed only after the Reactor itself has
been destroyed, but an active Connection is destroyed before the Reactor,
so the audit of the full trace including teardown passes exactly when no
client is active when the loop exits. -/
theorem claim_C5 (p s l e : Nat) (bs : List (List Ev))
    (hwf : (runLoop bs (initSt p s l e)).wf = true) :
    okTrace (runLoop bs (initSt p s l e)).trace = true ∧
    (okTrace ((runLoop bs (initSt p s l e)).trace ++
        shutdownTrace s l (runLoop bs (initSt p s l e))) = true ↔
      (runLoop bs (initSt p s l e)).client = none) := by
  obtain ⟨hInv, hok⟩ := runLoop_keep hwf (initSt_Inv p s l e) (initSt_okAligned p s l e)
  unfold okAligned at hok
  constructor
  · unfold okTrace
    rw [hok]
  · unfold okTrace
    rw [okFrom_append, hok]
    cases hc : (runLoop bs (initSt p s l e)).client with
    | none =>
      simp [shutdownTrace, hc, okFrom, okStep]
    | some c =>
      have hmem : c ∈ (runLoop bs (initSt p s l e)).regs := by
        rw [hInv.1, hc]
        simp
      have hstep : (okStep ⟨(runLoop bs (initSt p s l e)).regs, true, true⟩
          (TraceEv.close c)).ok = false := by
        simp [okStep, hmem]
      rw [shutdownTrace, hc]
      have hfull : (okFrom ⟨(runLoop bs (initSt p s l e)).regs, true, true⟩
          ([TraceEv.close c] ++ [TraceEv.reactorGone, TraceEv.close l, TraceEv.close s])).ok =
          false := by
        rw [List.singleton_append, okFrom_cons]
        exact okFrom_ok_false hstep _
      rw [hfull]
      simp

/-- C5 witness: a well-formed run in which the client disconnects before
shutdown, instantiating the amended theorem. -/
theorem claim_C5_witness :
    okTrace (runLoop [[Ev.lstReady [7], Ev.connReady 7 [RecvResult.pos 4, RecvResult.zero]],
        [Ev.sigReady [15]]] (initSt 1 3 4 5)).trace = true ∧
    (okTrace ((runLoop [[Ev.lstReady [7], Ev.connReady 7 [RecvResult.pos 4, RecvResult.zero]],
          [Ev.sigReady [15]]] (initSt 1 3 4 5)).trace ++
        shutdownTrace 3 4 (runLoop [[Ev.lstReady [7],
          Ev.connReady 7 [RecvResult.pos 4, RecvResult.zero]],
          [Ev.sigReady [15]]] (initSt 1 3 4 5))) = true ↔
      (runLoop [[Ev.lstReady [7], Ev.connReady 7 [RecvResult.pos 4, RecvResult.zero]],
        [Ev.sigReady [15]]] (initSt 1 3 4 5)).client = none) :=
  claim_C5 1 3 4 5 [[Ev.lstReady [7], Ev.connReady 7 [RecvResult.pos 4, RecvResult.zero]],
    [Ev.sigReady [15]]] (by decide)

/-- C6: Slot reuse.  If the active client `c` is removed by the receive
drain (script ending in orderly close or hard error), the slot is empty
afterwards, and the next accepted connection `f` is admitted: it becomes
the active client, its fd is appended to the interest set, and the
"active" line is logged (any further fds accepted in the same drain are
rejected, per the admit log). -/
theorem claim_C6 (st : SrvSt) (c f : Nat) (rs : List RecvResult) (rest : List Nat)
    (hc : st.client = some c) (hrm : endsRemoved rs = true) :
    (stepEv st (Ev.connReady c rs)).client = none ∧
    (stepEv (stepEv st (Ev.connReady c rs)) (Ev.lstReady (f :: rest))).client = some f ∧
    (stepEv (stepEv st (Ev.connReady c rs)) (Ev.lstReady (f :: rest))).regs =
      (stepEv st (Ev.connReady c rs)).regs ++ [f] ∧
    (stepEv (stepEv st (Ev.connReady c rs)) (Ev.lstReady (f :: rest))).log =
      (stepEv st (Ev.connReady c rs)).log ++ admitLog (f :: rest) := by
  have h1 : (stepEv st (Ev.connReady c rs)).client = none := by
    simp only [stepEv, hc, if_pos]
    rw [recvLoop_client, if_pos hrm]
  refine ⟨h1, ?_, ?_, ?_⟩
  · rw [show stepEv (stepEv st (Ev.connReady c rs)) (Ev.lstReady (f :: rest)) =
      acceptLoop (f :: rest) (stepEv st (Ev.connReady c rs)) from rfl,
      acceptLoop_client, h1]
    rfl
  · rw [show stepEv (stepEv st (Ev.connReady c rs)) (Ev.lstReady (f :: rest)) =
      acceptLoop (f :: rest) (stepEv st (Ev.connReady c rs)) from rfl,
      acceptLoop_regs, h1]
    rfl
  · rw [show stepEv (stepEv st (Ev.connReady c rs)) (Ev.lstReady (f :: rest)) =
      acceptLoop (f :: rest) (stepEv st (Ev.connReady c rs)) from rfl,
      acceptLoop_log, h1]

/-- C6 witness state: slot occupied by client fd 7. -/
def c6st : SrvSt :=
  { client := some 7, regs := [3, 4, 7], openFds := [3, 4, 5, 7],
    log := [], trace := [], wf := true, stop := false }

/-- C6 witness: client 7 closes, the next accepted fd 8 is admitted. -/
theorem claim_C6_witness :
    (stepEv c6st (Ev.connReady 7 [RecvResult.zero])).client = none ∧
    (stepEv (stepEv c6st (Ev.connReady 7 [RecvResult.zero])) (Ev.lstReady [8])).client = some 8 ∧
    (stepEv (stepEv c6st (Ev.connReady 7 [RecvResult.zero])) (Ev.lstReady [8])).regs =
      (stepEv c6st (Ev.connReady 7 [RecvResult.zero])).regs ++ [8] ∧
    (stepEv (stepEv c6st (Ev.connReady 7 [RecvResult.zero])) (Ev.lstReady [8])).log =
      (stepEv c6st (Ev.connReady 7 [RecvResult.zero])).log ++ admitLog [8] :=
  claim_C6 c6st 7 8 [RecvResult.zero] [] (by decide) (by decide)

/-- C7 counterexample: the claim "if any step fails the Listener is left
invalid with its Handle unset" is false for the `setsockopt` step: with a
successfully created socket, a failing `setsockopt` and successful
`bind`/`listen`, the constructor still completes all steps and leaves the
Listener valid, because the code never inspects the result of
`::setsockopt` (nor of the non-blocking `fcntl`). -/
theorem claim_C7_cex :
    (Listener.construct ⟨some 4, false, true, true⟩).1 = some 4 ∧
    (Listener.construct ⟨some 4, false, true, true⟩).2 =
      [SysStep.socketCall, SysStep.sockoptCall, SysStep.bindCall, SysStep.listenCall,
        SysStep.nonblockCall] := by decide

/-- C7 (amended): Listener construction performs, in order, socket
creation, the address-reuse option, bind, listen, and marking non-blocking;
a failure of socket creation, bind, or listen leaves the Handle unset with
the partially acquired socket closed (not leaked), and startup then exits
with code 1 before logging anything or processing any batch; the results of
the `setsockopt` and non-blocking steps are ignored, so their failure does
not invalidate the Listener. -/
theorem claim_C7 (o : LstOracle) (args : List String) (sv ev : Bool) (s l e : Nat)
    (bs : List (List Ev)) :
    (Listener.construct o).2 =
      (match o.socketFd with
        | none => [SysStep.socketCall]
        | some sfd =>
          if o.bindOk = false then
            [SysStep.socketCall, SysStep.sockoptCall, SysStep.bindCall, SysStep.closeCall sfd]
          else if o.listenOk = false then
            [SysStep.socketCall, SysStep.sockoptCall, SysStep.bindCall, SysStep.listenCall,
              SysStep.closeCall sfd]
          else
            [SysStep.socketCall, SysStep.sockoptCall, SysStep.bindCall, SysStep.listenCall,
              SysStep.nonblockCall]) ∧
    ((Listener.construct o).1 = none ↔
      (o.socketFd = none ∨ o.bindOk = false ∨ o.listenOk = false)) ∧
    (mainModel args sv false ev s l e bs).1 = MainOutcome.exited 1 ∧
    (mainModel args sv false ev s l e bs).2.log = [] := by
  refine ⟨?_, ?_, ?_, ?_⟩
  · cases ho : o.socketFd with
    | none => simp [Listener.construct, ho]
    | some sfd =>
      by_cases hb : o.bindOk = false
      · simp [Listener.construct, ho, hb]
      · by_cases hl : o.listenOk = false
        · simp [Listener.construct, ho, hb, hl]
        · simp [Listener.construct, ho, hb, hl]
  · cases ho : o.socketFd with
    | none => simp [Listener.construct, ho]
    | some sfd =>
      by_cases hb : o.bindOk = false
      · simp [Listener.construct, ho, hb]
      · by_cases hl : o.listenOk = false
        · simp [Listener.construct, ho, hb, hl]
        · simp only [Bool.not_eq_false] at hb hl
          simp [Listener.construct, ho, hb, hl]
  · simp [mainModel]
  · simp [mainModel, emptySrvSt]

/-- C8: Handle ownership discipline of `UniqueFd`.  Move construction
transfers the fd and leaves the source at the `-1` sentinel; moving and
then destroying both objects closes an owned fd exactly once (no
duplication of ownership); release is idempotent (destroying an already
emptied Handle closes nothing); destroying a non-empty Handle closes its fd
exactly once; move assignment transfers the fd, empties the source, and
across assignment plus destruction of both objects each originally owned
fd is closed exactly once. -/
theorem claim_C8 (u v : UniqueFd) :
    ((u.moveCtor).1.fd = u.fd ∧ (u.moveCtor).2.fd = -1) ∧
    (((u.moveCtor).1.destroy).2 ++ ((u.moveCtor).2.destroy).2 =
      (if u.fd = -1 then [] else [u.fd])) ∧
    (((u.destroy).1.destroy).2 = []) ∧
    ((u.destroy).2 = (if u.fd = -1 then [] else [u.fd])) ∧
    ((u.moveAssign v).1.1.fd = v.fd ∧ (u.moveAssign v).1.2.fd = -1) ∧
    ((u.moveAssign v).2 ++ (((u.moveAssign v).1.1.destroy).2 ++
        ((u.moveAssign v).1.2.destroy).2) =
      (if u.fd = -1 then [] else [u.fd]) ++ (if v.fd = -1 then [] else [v.fd])) := by
  by_cases hu : u.fd = -1 <;> by_cases hv : v.fd = -1 <;>
    simp [UniqueFd.moveCtor, UniqueFd.moveAssign, UniqueFd.destroy, UniqueFd.reset, hu, hv]

/-- C9: CLI port selection.  With no argument the fixed default 12345 is
used; with an argument, the `atoi`-parsed value is used exactly when it
lies in 1–65535 and otherwise the default is used; the choice depends only
on the first positional argument (no flags, configuration or environment
enter the model of `main`'s port computation). -/
theorem claim_C9 (a : String) (rest : List String) :
    choosePort [] = 12345 ∧
    choosePort (a :: rest) =
      (if 0 < atoi a ∧ atoi a ≤ 65535 then (atoi a).toNat else 12345) ∧
    choosePort (a :: rest) = choosePort [a] :=
  ⟨rfl, rfl, rfl⟩

/-- C10 counterexample: the claim "any argument with no leading digits is
silently replaced by the default port 12345" is false: `" 80"` starts with
a space, not a digit, yet `atoi` skips the leading whitespace and the
chosen port is 80, not 12345. -/
theorem claim_C10_cex :
    (" 80" : String).data.head? = some ' ' ∧
    (' ').isDigit = false ∧
    choosePort [" 80"] = 80 := by decide

/-- C10 (amended): the port argument is parsed with full `atoi` semantics.
An argument consisting of a decimal digit prefix followed by only non-digit
characters parses to the value of the prefix alone (so, when that value is
in range, the prefix is the port); an argument containing no digit at all
parses to 0; and any argument whose `atoi` value — after the whitespace and
sign skipping `atoi` performs — lies outside 1–65535 is silently replaced
by the default port 12345. -/
theorem claim_C10 (ds tl : List Char) (r r2 : List String) (a b : String)
    (hne : ds ≠ []) (hds : ∀ c ∈ ds, c.isDigit = true)
    (htl : ∀ c ∈ tl, c.isDigit = false)
    (hnd : ∀ c ∈ a.data, c.isDigit = false)
    (hout : ¬(0 < atoi b ∧ atoi b ≤ 65535)) :
    atoi (String.mk (ds ++ tl)) = atoi (String.mk ds) ∧
    choosePort (String.mk (ds ++ tl) :: r) = choosePort [String.mk ds] ∧
    atoi a = 0 ∧
    choosePort (b :: r2) = 12345 := by
  have hap := atoi_digits_append ds tl hne hds htl
  refine ⟨hap, ?_, atoi_nodigit a hnd, ?_⟩
  · simp only [choosePort, hap]
  · simp only [choosePort, if_neg hout]

/-- C10 witness: `"80abc"` parses like `"80"` and selects port 80; `"xyz"`
parses to 0 and falls back to the default. -/
theorem claim_C10_witness :
    atoi (String.mk (['8', '0'] ++ ['a', 'b', 'c'])) = atoi (String.mk ['8', '0']) ∧
    choosePort (String.mk (['8', '0'] ++ ['a', 'b', 'c']) :: []) =
      choosePort [String.mk ['8', '0']] ∧
    atoi "xyz" = 0 ∧
    choosePort ["xyz"] = 12345 :=
  claim_C10 ['8', '0'] ['a', 'b', 'c'] [] [] "xyz" "xyz"
    (by decide) (by decide) (by decide) (by decide) (by decide)

end Srv
